import Mathlib

/-!
Verification development for the markdown-folder-converter repository.

The repository consists of three TypeScript program variants in `convert.ts`
(a Markdown converter, a docx-only converter, and an HTML slide-viewer
converter) plus a VitePress config sidebar builder.  This file gives a
shallow embedding of the data model and the operations those programs
perform, translated from the TypeScript source, and proves properties of
the embedding.

Modelling conventions:
* xml2js parse trees (`explicitArray: true`) are modelled by the `JVal`
  inductive: a JavaScript value is `undefined`, a string, an array, or an
  object (association list of named fields).  xml2js produces no numbers,
  booleans or nulls in its trees, so those are omitted.
* All string manipulation is re-implemented structurally over `List Char`
  so that every definition evaluates inside the kernel; the helpers mirror
  the exact JavaScript semantics used by the source (`String.prototype`
  methods and the specific regexes that appear in the code).
* Filesystem side effects of the orchestrators are modelled as explicit
  effect traces (`Effect` lists); converter calls that may throw are
  modelled as `Except`-valued oracles, mirroring the `try`/`catch`
  structure of `main`.
-/

/-! ## Structural string helpers (kernel-computable JS string semantics) -/

/-- JavaScript `Array.prototype.join(sep)` on a list of strings. -/
def joinSep (sep : String) : List String → String
  | [] => ""
  | [a] => a
  | a :: rest => a ++ sep ++ joinSep sep rest

/-- `String.prototype.split(c)` for a one-character separator, on char lists.
Splitting the empty list yields `[[]]`, exactly as in JavaScript. -/
def splitOnChar (sep : Char) : List Char → List (List Char)
  | [] => [[]]
  | c :: t =>
    if c = sep then [] :: splitOnChar sep t
    else
      match splitOnChar sep t with
      | [] => [[c]]
      | h :: r => (c :: h) :: r

/-- `String.prototype.split(c)` at the string level. -/
def splitStr (sep : Char) (s : String) : List String :=
  (splitOnChar sep s.data).map (fun cs => String.mk cs)

/-- `String.prototype.trim()` (whitespace at both ends removed).  The JS
whitespace class is modelled by `Char.isWhitespace`. -/
def strTrim (s : String) : String :=
  String.mk (((s.data.dropWhile Char.isWhitespace).reverse.dropWhile Char.isWhitespace).reverse)

/-- `String.prototype.toLowerCase()`; ASCII case folding (the source only
lower-cases file extensions and path segments). -/
def strLower (s : String) : String :=
  String.mk (s.data.map Char.toLower)

/-- Drop the last `n` characters of a string (used to model anchored-suffix
regex replacements such as `/\.md$/`). -/
def strDropRight (n : Nat) (s : String) : String :=
  String.mk (s.data.take (s.data.length - n))

/-- Whether `suf` is a suffix of `s` (JS `String.prototype.endsWith`). -/
def strHasSuffix (suf s : String) : Bool :=
  List.isPrefixOf suf.data.reverse s.data.reverse

/-- Whether `pre` is a prefix of `s` (JS `String.prototype.startsWith`). -/
def strHasPrefix (pre s : String) : Bool :=
  List.isPrefixOf pre.data s.data

/-- Drop the first `n` characters of a string. -/
def strDrop (n : Nat) (s : String) : String :=
  String.mk (s.data.drop n)

/-- JavaScript truthiness of a string: non-empty. -/
def strTruthy (s : String) : Bool := s ≠ ""

/-- `flatMap` on lists, written out structurally (mirrors the
`Array.prototype.flatMap` / per-element `continue` loops of the source). -/
def concatMap (f : α → List β) : List α → List β
  | [] => []
  | a :: l => f a ++ concatMap f l

/-- `parseInt(s, 10)` on a string of decimal digits (returns the parsed
number), as applied by the source to the digit groups captured by its
regexes.  Folds digits most-significant first, like `parseInt`. -/
def digitsToNat (cs : List Char) : Nat :=
  cs.foldl (fun n c => n * 10 + (c.toNat - '0'.toNat)) 0

/-- Full `parseInt(s, 10)`: skip leading whitespace, read an optional sign
and then a non-empty digit prefix; `none` models `NaN`.  (Exponents, hex
prefixes etc. never occur in the OOXML attributes the source parses.) -/
def jsParseInt (s : String) : Option Int :=
  let cs := s.data.dropWhile Char.isWhitespace
  let (neg, cs) : Bool × List Char :=
    match cs with
    | '-' :: t => (true, t)
    | '+' :: t => (false, t)
    | t => (false, t)
  let digits := cs.takeWhile Char.isDigit
  if digits.isEmpty then none
  else some (if neg then -(digitsToNat digits : Int) else (digitsToNat digits : Int))

/-- `parseInt(s, 10) || 0`: the `NaN`-to-`0` (and `0`-to-`0`) coercion used
for shape transforms in the source. -/
def jsParseIntOr0 (s : String) : Int := (jsParseInt s).getD 0

/-! ## The xml2js value model -/

/-- A JavaScript value as produced by xml2js with `explicitArray: true`:
`undefined`, a string, an array, or an object whose fields are an
association list (attribute maps live under the reserved key `$`, text
content under `_`, child elements under their tag names as arrays). -/
inductive JVal where
  | undefined : JVal
  | str : String → JVal
  | arr : List JVal → JVal
  | obj : List (String × JVal) → JVal

/-- Property access `v[k]`: only objects have the tag/attribute keys the
source reads; indexing anything else yields `undefined` (JS string/array
property access with an XML tag name is `undefined`). -/
def jIndex : JVal → String → JVal
  | .obj fields, k =>
    match fields.lookup k with
    | some v => v
    | none => .undefined
  | _, _ => .undefined

/-- The `[0]` unwrap step of the source's `get` helper: `arr[0]` (with
`undefined` for the empty array), anything else passed through. -/
def jFirst : JVal → JVal
  | .arr [] => .undefined
  | .arr (x :: _) => x
  | v => v

/-- `v?.[0]` as written in the rels parser: array head, object field `"0"`,
first character of a string, else `undefined`. -/
def jIdx0 : JVal → JVal
  | .arr [] => .undefined
  | .arr (x :: _) => x
  | .obj fields =>
    match fields.lookup "0" with
    | some v => v
    | none => .undefined
  | .str s =>
    match s.data with
    | [] => .undefined
    | c :: _ => .str (String.mk [c])
  | .undefined => .undefined

/-- The source's `get(obj, ...keys)` helper (`convert.ts`): at each step
unwrap a surrounding array to its head, then read the key; finally unwrap
once more. -/
def jGet (v : JVal) (keys : List String) : JVal :=
  jFirst (keys.foldl (fun cur k => jIndex (jFirst cur) k) v)

/-- JavaScript truthiness of an xml2js node: falsy iff `undefined` or the
empty string (empty XML elements parse to `''`). -/
def jFalsy : JVal → Bool
  | .undefined => true
  | .str s => s = ""
  | _ => false

/-- `([] as T[]).concat(x ?? [])`: `undefined` becomes `[]`, an array is
spread, a single value is wrapped. -/
def concatJs : JVal → List JVal
  | .undefined => []
  | .arr xs => xs
  | v => [v]

/-- Read a string-valued node, with `''` for anything else (models the
`?? ''` defaults applied to attribute reads; xml2js attribute values are
always strings). -/
def jStr : JVal → String
  | .str s => s
  | _ => ""

/-! ## Path resolver (`resolveZipPath`, HTML-viewer variant) -/

/-- `resolveZipPath` from the HTML-viewer variant: resolve a zip-relative
target (e.g. `../media/img.png`) against the directory of a base entry.
`result.pop()` on an empty JS array is a no-op, matching `dropLast []`. -/
def resolveZipPath (fromKey target : String) : String :=
  let dir := joinSep "/" ((splitStr '/' fromKey).dropLast)
  let parts := splitStr '/' (dir ++ "/" ++ target)
  let result := parts.foldl
    (fun acc p => if p = ".." then acc.dropLast else if p = "." then acc else acc ++ [p]) []
  joinSep "/" result

/-- The path-resolution algorithm as the specification words it: take the
directory portion of the base, concatenate the target, split on `/`, then
walk the segments left-to-right with an explicit stack — `..` pops the last
accumulated segment (no-op on an empty stack), `.` is dropped, everything
else is pushed.  Stated as its own recursion so it can be compared against
the implementation's fold. -/
def resolveSegsSpec (acc : List String) : List String → List String
  | [] => acc
  | s :: rest =>
    if s = ".." then resolveSegsSpec acc.dropLast rest
    else if s = "." then resolveSegsSpec acc rest
    else resolveSegsSpec (acc ++ [s]) rest

/-- Specification-side packaging of `resolveSegsSpec` over the same
directory-portion/concatenate/split preprocessing the spec describes. -/
def resolveZipPathSpec (basePath relativeTarget : String) : String :=
  let dir := joinSep "/" ((splitStr '/' basePath).dropLast)
  let segs := splitStr '/' (dir ++ "/" ++ relativeTarget)
  joinSep "/" (resolveSegsSpec [] segs)

/-! ## Paragraph extraction (`parseParagraph`, Markdown variant) -/

/-- Result of `parseParagraph`: plain text plus bullet indent level. -/
structure ParsedParagraph where
  text : String
  level : Nat
deriving DecidableEq

/-- Text of one `<a:t>` node: a string directly, or the `_` text field of a
wrapped node (`(t as XmlNode)?._ ?? ''`). -/
def tNodeText : JVal → String
  | .str s => s
  | v => jStr (jIndex v "_")

/-- Text of one run (`<a:r>` or `<a:fld>`): the concatenated `<a:t>` texts. -/
def runText (run : JVal) : String :=
  joinSep "" ((concatJs (jIndex run "a:t")).map tNodeText)

/-- `parseParagraph` (`convert.ts`, Markdown variant): extract text and
indent level from an `<a:p>` node.  A non-object (`!para || typeof para
!== 'object'`) yields empty text at level 0.  The `lvl` attribute is fed
through `parseInt`; a `NaN` or negative parse is modelled as level 0 — the
only consumer is `'  '.repeat(level)`, which coerces `NaN` to 0 (and no
OOXML producer emits a negative `lvl`). -/
def parseParagraph (para : JVal) : ParsedParagraph :=
  match para with
  | .str _ => ⟨"", 0⟩
  | .undefined => ⟨"", 0⟩
  | _ =>
    let pPr := jGet para ["a:pPr"]
    let lvlS := jStr (jIndex (jIndex pPr "$") "lvl")
    let level : Nat := if lvlS = "" then 0 else ((jsParseInt lvlS).getD 0).toNat
    let runs := concatJs (jIndex para "a:r") ++ concatJs (jIndex para "a:fld")
    ⟨joinSep "" (runs.map runText), level⟩

/-! ## Blank-line collapsing (`.replace(/\n{3,}/g, '\n\n')`) -/

/-- Worker for the `/\n{3,}/g → "\n\n"` replacement: `k` counts the pending
run of newline characters; when the run ends (or the input does), a run of
three or more newlines is emitted as exactly two, shorter runs verbatim. -/
def collapseNLGo : Nat → List Char → List Char
  | k, [] => List.replicate (min k 2) '\n'
  | k, c :: rest =>
    if c = '\n' then collapseNLGo (k + 1) rest
    else List.replicate (min k 2) '\n' ++ c :: collapseNLGo 0 rest

/-- `s.replace(/\n{3,}/g, '\n\n')`: every maximal run of three or more
newlines becomes two newlines. -/
def collapseNL (s : String) : String :=
  String.mk (collapseNLGo 0 s.data)

/-- The Markdown line rendered for one paragraph inside
`paragraphsToMarkdown`: blank for whitespace-only text, otherwise a bullet
with two spaces of indent per level. -/
def mdLineOf (para : JVal) : String :=
  let p := parseParagraph para
  if strTrim p.text = "" then ""
  else String.mk (List.replicate (2 * p.level) ' ') ++ "- " ++ p.text

/-- `paragraphsToMarkdown` (`convert.ts`, Markdown variant): render each
paragraph to a line, join with newlines, then collapse newline runs. -/
def paragraphsToMarkdown (paragraphs : List JVal) : String :=
  collapseNL (joinSep "\n" (paragraphs.map mdLineOf))

/-! ## Slide parsing (`parseSlideDoc`, Markdown variant) -/

/-- Result of `parseSlideDoc`. -/
structure SlideData where
  title : String
  bodyBlocks : List String
deriving DecidableEq

/-- The `<p:sp>` shape list of a slide document (empty when the
`p:sld/p:cSld/p:spTree` root is missing/falsy). -/
def slideShapesOf (slideDoc : JVal) : List JVal :=
  let spTree := jGet slideDoc ["p:sld", "p:cSld", "p:spTree"]
  if jFalsy spTree then [] else concatJs (jIndex spTree "p:sp")

/-- Placeholder type attribute of a shape (`ph?.['$']?.type ?? ''`). -/
def shapePhType (sp : JVal) : String :=
  jStr (jIndex (jIndex (jGet sp ["p:nvSpPr", "p:nvPr", "p:ph"]) "$") "type")

/-- Whether a shape's placeholder type is one of the three title types. -/
def shapeIsTitleType (sp : JVal) : Bool :=
  shapePhType sp = "title" || shapePhType sp = "ctrTitle" || shapePhType sp = "subTitle"

/-- The `<a:p>` paragraph nodes of a shape's text body ([] when the body is
missing/falsy, mirroring the `if (!txBody) continue` guard). -/
def shapeParagraphs (sp : JVal) : List JVal :=
  let txBody := jGet sp ["p:txBody"]
  if jFalsy txBody then [] else concatJs (jIndex txBody "a:p")

/-- The non-empty paragraph texts of a shape
(`paragraphs.map(...).filter(Boolean)`). -/
def shapeTexts (sp : JVal) : List String :=
  ((shapeParagraphs sp).map (fun p => (parseParagraph p).text)).filter (fun t => t ≠ "")

/-- The body block a shape contributes when it is not consumed as the
title: its Markdown rendering, kept only when non-blank; `none` also covers
shapes skipped by the `!txBody` / `!texts.length` guards. -/
def blockOf (sp : JVal) : Option String :=
  if (shapeTexts sp).isEmpty then none
  else
    let block := paragraphsToMarkdown (shapeParagraphs sp)
    if strTrim block ≠ "" then some block else none

/-- The shape loop of `parseSlideDoc`, with the mutable `title` accumulator
made explicit (`""` plays the role of the falsy unset title). -/
def slideLoop : String → List JVal → String × List String
  | title, [] => (title, [])
  | title, sp :: rest =>
    if (shapeTexts sp).isEmpty then slideLoop title rest
    else if shapeIsTitleType sp && title = "" then
      slideLoop (joinSep " " (shapeTexts sp)) rest
    else
      let r := slideLoop title rest
      let block := paragraphsToMarkdown (shapeParagraphs sp)
      (r.1, if strTrim block ≠ "" then block :: r.2 else r.2)

/-- `parseSlideDoc` (`convert.ts`, Markdown variant): title and body blocks
of one slide document. -/
def parseSlideDoc (slideDoc : JVal) : SlideData :=
  let r := slideLoop "" (slideShapesOf slideDoc)
  ⟨r.1, r.2⟩

/-! ## Speaker notes (`parseNotesDoc`, Markdown variant) -/

/-- `parseNotesDoc` (`convert.ts`, Markdown variant): the texts of the
paragraphs of the shape with placeholder index `"1"`, joined by newlines;
paragraphs with whitespace-only text are skipped. -/
def parseNotesDoc (notesDoc : JVal) : String :=
  let spTree := jGet notesDoc ["p:notes", "p:cSld", "p:spTree"]
  if jFalsy spTree then ""
  else
    joinSep "\n" (concatMap
      (fun sp =>
        let phIdx := jStr (jIndex (jIndex (jGet sp ["p:nvSpPr", "p:nvPr", "p:ph"]) "$") "idx")
        if phIdx ≠ "1" then []
        else
          let txBody := jGet sp ["p:txBody"]
          if jFalsy txBody then []
          else
            (concatJs (jIndex txBody "a:p")).filterMap (fun para =>
              let t := (parseParagraph para).text
              if strTrim t ≠ "" then some t else none))
      (concatJs (jIndex spTree "p:sp")))

/-! ## Slide entry selection and numeric sorting (`convertPptx`) -/

/-- Whether a zip entry name matches `/^ppt\/slides\/slide\d+\.xml$/`:
exactly the prefix `ppt/slides/slide`, a non-empty run of decimal digits,
and the suffix `.xml`. -/
def isSlideKey (s : String) : Bool :=
  strHasPrefix "ppt/slides/slide" s &&
  strHasSuffix ".xml" s &&
  (let mid := (s.data.drop 16).take ((s.data.drop 16).length - 4)
   !mid.isEmpty && mid.all Char.isDigit)

/-- The slide number of a matching entry name: `parseInt` applied to the
digit group of the first `slide(\d+)` match.  On an entry accepted by
`isSlideKey` the leftmost successful match is the filename's digit run (the
earlier occurrence of `slide` inside `slides/` is not followed by a digit),
so the number is the decimal value between the fixed prefix and `.xml`. -/
def slideNumOf (s : String) : Nat :=
  digitsToNat ((s.data.drop 16).take ((s.data.drop 16).length - 4))

/-- One insertion step of a stable ascending sort by a boolean comparator
`le` (the element is inserted after every element it is `le`-above). -/
def insertLe (le : α → α → Bool) (x : α) : List α → List α
  | [] => [x]
  | y :: ys => if le y x then y :: insertLe le x ys else x :: y :: ys

/-- Stable insertion sort by a boolean comparator: models
`Array.prototype.sort` with a two-argument comparator (ES2019 sort is
stable; with the source's comparators ties never reorder). -/
def insSortBy (le : α → α → Bool) (l : List α) : List α :=
  l.foldl (fun acc x => insertLe le x acc) []

/-- The slide-key comparator `(a, b) => slideNum(a) - slideNum(b)` as a
boolean `le`. -/
def slideKeyLe (a b : String) : Bool := slideNumOf a ≤ slideNumOf b

/-- `Object.keys(zip.files).filter(slide regex).sort(by slide number)` from
`convertPptx` / `convertPptxToHtml`. -/
def sortSlideKeys (names : List String) : List String :=
  insSortBy slideKeyLe (names.filter isSlideKey)

/-- Index the elements of a list starting at `i` (the `for (let i = 0; ...)`
loop counter of the slide loops). -/
def withIdx (i : Nat) : List α → List (Nat × α)
  | [] => []
  | a :: l => (i, a) :: withIdx (i + 1) l

/-- A slide package for the Markdown converter: the zip entry names paired
with their parsed XML documents (XML parsing is an external black box, so
entries are modelled already parsed). -/
def lookupDoc (files : List (String × JVal)) (k : String) : JVal :=
  match files.lookup k with
  | some d => d
  | none => .undefined

/-- The Markdown section rendered for the slide at (0-based) position `i`
with entry name `k` (`convertPptx` loop body): heading from the parsed
title (or `## Slide n`), body blocks joined by blank lines, then a
block-quoted notes section when the (position-indexed) notes entry yields
non-blank text. -/
def renderSection (files : List (String × JVal)) (i : Nat) (k : String) : String :=
  let slideNum := i + 1
  let data := parseSlideDoc (lookupDoc files k)
  let notesKey := "ppt/notesSlides/notesSlide" ++ toString slideNum ++ ".xml"
  let notes :=
    match files.lookup notesKey with
    | some d => parseNotesDoc d
    | none => ""
  let heading := if data.title ≠ "" then "## " ++ data.title else "## Slide " ++ toString slideNum
  let parts :=
    [heading]
    ++ (if data.bodyBlocks.isEmpty then [] else [joinSep "\n\n" data.bodyBlocks])
    ++ (if strTrim notes ≠ "" then
          ["**Notes:**\n\n" ++ joinSep "\n" ((splitStr '\n' notes).map (fun l => "> " ++ l))]
        else [])
  joinSep "\n\n" parts

/-- The rendered slide sections of a deck, one per matching slide entry, in
ascending numeric order of the entry filename's number. -/
def convertPptxSections (files : List (String × JVal)) : List String :=
  (withIdx 0 (sortSlideKeys (files.map Prod.fst))).map (fun p => renderSection files p.1 p.2)

/-- `convertPptx` (`convert.ts`, Markdown variant): sections joined with a
horizontal-rule separator. -/
def convertPptx (files : List (String × JVal)) : String :=
  joinSep "\n\n---\n\n" (convertPptxSections files)

/-! ## HTML-viewer variant: text/picture shape extraction (`parseSlide`) -/

/-- `escapeHtml` (`convert.ts`, HTML-viewer variant).  The source applies
the four replacements in sequence starting with `&`, which is equivalent to
this single per-character pass. -/
def escapeHtml (s : String) : String :=
  String.mk (concatMap
    (fun c =>
      if c = '&' then "&amp;".data
      else if c = '<' then "&lt;".data
      else if c = '>' then "&gt;".data
      else if c = '"' then "&quot;".data
      else [c])
    s.data)

/-- `s.replace(pat, '')` for a fixed plain-text pattern, removing each
non-overlapping occurrence left to right (used for `/&nbsp;/g`). -/
def removeAllSub (pat : List Char) : List Char → List Char
  | [] => []
  | c :: t =>
    if h : pat ≠ [] ∧ List.isPrefixOf pat (c :: t) then removeAllSub pat ((c :: t).drop pat.length)
    else c :: removeAllSub pat t
termination_by l => l.length
decreasing_by
  · have hp : 0 < pat.length := List.length_pos.mpr h.1
    simp only [List.length_drop, List.length_cons]
    omega
  · simp

/-- An absolutely positioned shape of the HTML viewer: position and size as
percentages of the slide dimensions, plus rendered inner HTML.  The source
computes the percentages with JS doubles; they are modelled as exact
rationals (none of the verified properties depend on rounding). -/
structure HtmlShape where
  xPct : ℚ
  yPct : ℚ
  wPct : ℚ
  hPct : ℚ
  inner : String
deriving DecidableEq

/-- `getTransform` (`convert.ts`, HTML-viewer variant): read offset and
extent (EMU) from a shape's `a:xfrm` and convert to percentages; `none`
when the transform or its attribute sets are missing. -/
def getTransform (sp : JVal) (slideW slideH : Int) : Option HtmlShape :=
  let xfrm := jGet sp ["p:spPr", "a:xfrm"]
  if jFalsy xfrm then none
  else
    let off := jGet xfrm ["a:off"]
    let ext := jGet xfrm ["a:ext"]
    if jFalsy (jIndex off "$") || jFalsy (jIndex ext "$") then none
    else some
      { xPct := (jsParseIntOr0 (jStr (jIndex (jIndex off "$") "x")) : ℚ) / (slideW : ℚ) * 100
        yPct := (jsParseIntOr0 (jStr (jIndex (jIndex off "$") "y")) : ℚ) / (slideH : ℚ) * 100
        wPct := (jsParseIntOr0 (jStr (jIndex (jIndex ext "$") "cx")) : ℚ) / (slideW : ℚ) * 100
        hPct := (jsParseIntOr0 (jStr (jIndex (jIndex ext "$") "cy")) : ℚ) / (slideH : ℚ) * 100
        inner := "" }

/-- Decimal rendering of `sz / 100` as JavaScript prints it for the
`font-size` style (e.g. `1800 ↦ "18"`, `1850 ↦ "18.5"`, `1833 ↦ "18.33"`):
integer part, then up to two fractional digits with trailing zeros
dropped. -/
def fontSizeStr (sz : Int) : String :=
  let sign := if sz < 0 then "-" else ""
  let a := sz.natAbs
  let ip := a / 100
  let fr := a % 100
  if fr = 0 then sign ++ toString ip
  else if fr % 10 = 0 then sign ++ toString ip ++ "." ++ toString (fr / 10)
  else if fr < 10 then sign ++ toString ip ++ ".0" ++ toString fr
  else sign ++ toString ip ++ "." ++ toString fr

/-- The HTML for one run inside `paragraphsToHtml`: empty for a textless
run, otherwise the escaped text, wrapped in a styled span when any of
bold/italic/underline/size/color is present. -/
def runHtml (run : JVal) : String :=
  let text := joinSep "" ((concatJs (jIndex run "a:t")).map tNodeText)
  if text = "" then ""
  else
    let rPr := jGet run ["a:rPr"]
    let battr := fun (k : String) => jStr (jIndex (jIndex rPr "$") k)
    let bold := battr "b" = "1"
    let italic := battr "i" = "1"
    let uVal := battr "u"
    let underline := uVal ≠ "" && uVal ≠ "none"
    let szRaw := battr "sz"
    let fontSize : Option Int := if szRaw = "" then none else jsParseInt szRaw
    let solidFill := jGet rPr ["a:solidFill"]
    let srgbVal := jStr (jIndex (jIndex (jGet solidFill ["a:srgbClr"]) "$") "val")
    let sysVal := jStr (jIndex (jIndex (jGet solidFill ["a:sysClr"]) "$") "lastClr")
    let color := if srgbVal ≠ "" then "#" ++ srgbVal
                 else if sysVal ≠ "" then "#" ++ sysVal
                 else ""
    let style :=
      (if bold then "font-weight:bold;" else "")
      ++ (if italic then "font-style:italic;" else "")
      ++ (if underline then "text-decoration:underline;" else "")
      ++ (match fontSize with
          | some z => if z ≠ 0 then "font-size:" ++ fontSizeStr z ++ "pt;" else ""
          | none => "")
      ++ (if color ≠ "" then "color:" ++ color ++ ";" else "")
    let safe := escapeHtml text
    if style ≠ "" then "<span style=\"" ++ style ++ "\">" ++ safe ++ "</span>" else safe

/-- The HTML for one paragraph inside `paragraphsToHtml`. -/
def paraHtml (para : JVal) : String :=
  let pPr := jGet para ["a:pPr"]
  let algn := jStr (jIndex (jIndex pPr "$") "algn")
  let alignCss :=
    if algn = "ctr" then "text-align:center;"
    else if algn = "r" then "text-align:right;"
    else if algn = "just" then "text-align:justify;"
    else ""
  let runs := concatJs (jIndex para "a:r") ++ concatJs (jIndex para "a:fld")
  if runs.isEmpty then "<p style=\"margin:0;line-height:1.3;\">&nbsp;</p>"
  else
    let inner := joinSep "" (runs.map runHtml)
    "<p style=\"margin:0;line-height:1.3;" ++ alignCss ++ "\">"
      ++ (if inner = "" then "&nbsp;" else inner) ++ "</p>"

/-- `paragraphsToHtml` (`convert.ts`, HTML-viewer variant). -/
def paragraphsToHtml (paragraphs : List JVal) : String :=
  joinSep "" (paragraphs.map paraHtml)

/-- `extractSlideBackground` (`convert.ts`, HTML-viewer variant). -/
def extractSlideBackground (slideDoc : JVal) : String :=
  let bgPr := jGet slideDoc ["p:sld", "p:cSld", "p:bg", "p:bgPr"]
  if jFalsy bgPr then ""
  else
    let v := jStr (jIndex (jIndex (jGet bgPr ["a:solidFill", "a:srgbClr"]) "$") "val")
    if v ≠ "" then "#" ++ v else ""

/-- The text shape produced for one `<p:sp>` node in `parseSlide`: `none`
when the transform or text body is missing or the HTML is blank after
stripping `&nbsp;`. -/
def textShapeOf (slideW slideH : Int) (sp : JVal) : Option HtmlShape :=
  match getTransform sp slideW slideH with
  | none => none
  | some xf =>
    let txBody := jGet sp ["p:txBody"]
    if jFalsy txBody then none
    else
      let html := paragraphsToHtml (concatJs (jIndex txBody "a:p"))
      if strTrim (String.mk (removeAllSub "&nbsp;".data html.data)) = "" then none
      else some { xf with inner := "<div class=\"tb\">" ++ html ++ "</div>" }

/-- The relationship ID of a picture shape
(`blip?.['$']?.['r:embed']`, with the `if (!rId)` falsy guard folded in). -/
def picRId (pic : JVal) : Option String :=
  let blip := jGet pic ["p:blipFill", "a:blip"]
  let r := jStr (jIndex (jIndex blip "$") "r:embed")
  if r = "" then none else some r

/-- Look up a relationship target, treating a missing or empty-string entry
as unresolved (the source's `zipPath ? ... : undefined` truthiness test). -/
def relTargetLookup (rels : List (String × String)) (rId : String) : Option String :=
  match rels.lookup rId with
  | some z => if z = "" then none else some z
  | none => none

/-- Look up a media-cache data URI, treating a missing or empty-string
entry as unresolved (the source's `if (!dataUri) continue` guard). -/
def cacheLookup (mediaCache : List (String × String)) (zipPath : String) : Option String :=
  match mediaCache.lookup zipPath with
  | some d => if d = "" then none else some d
  | none => none

/-- The picture shape produced for one `<p:pic>` node in `parseSlide`:
`none` when the transform is missing, the relationship ID is absent, the ID
has no entry in the slide's relationship map, or the resolved archive path
has no media-cache entry. -/
def picShapeOf (rels mediaCache : List (String × String)) (slideW slideH : Int)
    (pic : JVal) : Option HtmlShape :=
  match getTransform pic slideW slideH with
  | none => none
  | some xf =>
    match picRId pic with
    | none => none
    | some rId =>
      match relTargetLookup rels rId with
      | none => none
      | some zipPath =>
        match cacheLookup mediaCache zipPath with
        | none => none
        | some dataUri =>
          some { xf with
                 inner := "<img src=\"" ++ dataUri
                   ++ "\" style=\"width:100%;height:100%;object-fit:contain;\" alt=\"\">" }

/-- An extracted slide of the HTML viewer. -/
structure HtmlSlide where
  background : String
  shapes : List HtmlShape
  notes : String
deriving DecidableEq

/-- The shape list built by `parseSlide`'s two loops: text shapes in shape
order, then picture shapes in picture order, each dropped (`continue`)
when its builder yields `none`. -/
def parseSlideCore (sps pics : List JVal) (rels mediaCache : List (String × String))
    (slideW slideH : Int) : List HtmlShape :=
  sps.filterMap (textShapeOf slideW slideH) ++ pics.filterMap (picShapeOf rels mediaCache slideW slideH)

/-- The `<p:sp>` nodes of a slide document in the HTML-viewer variant. -/
def slideSpNodes (slideDoc : JVal) : List JVal :=
  concatJs (jIndex (jGet slideDoc ["p:sld", "p:cSld", "p:spTree"]) "p:sp")

/-- The `<p:pic>` nodes of a slide document in the HTML-viewer variant. -/
def slidePicNodes (slideDoc : JVal) : List JVal :=
  concatJs (jIndex (jGet slideDoc ["p:sld", "p:cSld", "p:spTree"]) "p:pic")

/-- `parseSlide` (`convert.ts`, HTML-viewer variant): background, the text
and picture shapes, and an empty notes field (notes are filled in later by
the caller). -/
def parseSlide (slideDoc : JVal) (rels mediaCache : List (String × String))
    (slideW slideH : Int) : HtmlSlide :=
  { background := extractSlideBackground slideDoc
    shapes := parseSlideCore (slideSpNodes slideDoc) (slidePicNodes slideDoc)
                rels mediaCache slideW slideH
    notes := "" }

/-! ## HTML-viewer variant: per-slide relationship maps (`convertPptxToHtml`) -/

/-- JS object assignment `rels[id] = v`: overwrite in place or append. -/
def upsert (k v : String) : List (String × String) → List (String × String)
  | [] => [(k, v)]
  | (k', v') :: t => if k' = k then (k, v) :: t else (k', v') :: upsert k v t

/-- The rels-parsing block of `convertPptxToHtml`: walk the `Relationship`
elements under `Relationships`, and for each one with truthy `Id` and
`Target` attributes record `Id ↦ resolveZipPath(slideKey, Target)`.
`slideKey` is the path of the slide whose pictures the map will resolve. -/
def parseRels (slideKey : String) (relsDoc : JVal) : List (String × String) :=
  let relsRoot := jIdx0 (jIndex relsDoc "Relationships")
  (concatJs (jIndex relsRoot "Relationship")).foldl
    (fun m rel =>
      let id := jStr (jIndex (jIndex rel "$") "Id")
      let tgt := jStr (jIndex (jIndex rel "$") "Target")
      if id ≠ "" && tgt ≠ "" then upsert id (resolveZipPath slideKey tgt) m else m)
    []

/-- The relationship manifest entry name `convertPptxToHtml` reads for the
slide at 0-based position `i` of the sorted slide list:
`ppt/slides/_rels/slide${i + 1}.xml.rels`, built from the loop counter, not
from the slide's own entry name. -/
def relKeyForPosition (slideNum : Nat) : String :=
  "ppt/slides/_rels/slide" ++ toString slideNum ++ ".xml.rels"

/-- The relationship manifest entry that belongs to a slide entry itself
(`ppt/slides/slideN.xml ↦ ppt/slides/_rels/slideN.xml.rels`) — the map the
specification says each slide's picture references are resolved with. -/
def ownRelKeyOf (slideKey : String) : String :=
  let base := joinSep "/" ((splitStr '/' slideKey).drop 2)
  "ppt/slides/_rels/" ++ base ++ ".rels"

/-- Projection of the per-slide loop of `convertPptxToHtml` (the rels
construction, source lines 1052-1068 of the HTML-viewer variant): each
processed slide entry, in processing order, paired with the relationship
map that `parseSlide` is called with for it. -/
def convertPptxToHtmlRels (files : List (String × JVal)) : List (String × List (String × String)) :=
  (withIdx 0 (sortSlideKeys (files.map Prod.fst))).map (fun p =>
    let slideKey := p.2
    let relKey := relKeyForPosition (p.1 + 1)
    let rels :=
      match files.lookup relKey with
      | some d => parseRels slideKey d
      | none => []
    (slideKey, rels))

/-! ## Orchestrator effect model (`main` of the three variants) -/

/-- A filesystem side effect of an orchestrator run.  `writeSidebar`
stands for the final "build the sidebar config from the output tree and
write it" step (its content is a function of the resulting tree, not of the
inputs alone). -/
inductive Effect where
  | exitCode : Nat → Effect
  | mkdir : String → Effect
  | copyFile : String → String → Effect
  | writeFile : String → String → Effect
  | writeSidebar : String → Effect
  | rmTree : String → Effect
deriving DecidableEq

/-- Whether an effect writes an output file for a converted input
(directory creation, copying and the sidebar write are not per-file
conversion output). -/
def Effect.isFileWrite : Effect → Bool
  | .writeFile _ _ => true
  | _ => false

/-- `path.basename`: the last `/`-separated segment.  Input paths are
modelled relative to the input root with `/` separators. -/
def baseNameOf (f : String) : String :=
  ((splitStr '/' f).getLast?).getD ""

/-- `path.dirname`: everything before the last separator (the path itself
has at least one segment; a one-segment path has dirname `"."`). -/
def dirnameOf (f : String) : String :=
  let parts := (splitStr '/' f).dropLast
  if parts.isEmpty then "." else joinSep "/" parts

/-- `path.extname`: from the basename, the substring starting at the last
`.`, except that a dot at position 0 (hidden files) or no dot at all give
`""`. -/
def extnameOf (f : String) : String :=
  let b := (baseNameOf f).data
  let revAfter := b.reverse.takeWhile (fun c => c ≠ '.')
  if revAfter.length = b.length then ""
  else if b.length - (revAfter.length + 1) = 0 then ""
  else String.mk ('.' :: revAfter.reverse)

/-- Lower-cased extension of a path (`path.extname(f).toLowerCase()`). -/
def extLower (f : String) : String := strLower (extnameOf f)

/-- The recognized-input filter of the Markdown/HTML variants: skip Office
lock files (`~$` prefix), keep `.docx`/`.pptx`/`.xlsx`. -/
def keepRecognized (f : String) : Bool :=
  !strHasPrefix "~$" (baseNameOf f) &&
  (extLower f = ".docx" || extLower f = ".pptx" || extLower f = ".xlsx")

/-- `relative.replace(/\.(docx|pptx)$/i, '.md')`. -/
def replaceDocxPptxToMd (rel : String) : String :=
  if strLower (String.mk (rel.data.drop (rel.data.length - 5))) = ".docx"
     || strLower (String.mk (rel.data.drop (rel.data.length - 5))) = ".pptx"
  then strDropRight 5 rel ++ ".md" else rel

/-- `title.replace(/"/g, '\\"')` used when building frontmatter. -/
def escapeQuotes (s : String) : String :=
  String.mk (concatMap (fun c => if c = '"' then ['\\', '"'] else [c]) s.data)

/-- `path.basename(filePath, ext)`: strip `ext` only when it is a proper
suffix of the basename (Node keeps the name when it equals the suffix). -/
def baseNameWithout (f ext : String) : String :=
  let b := baseNameOf f
  if ext ≠ "" && b ≠ ext && strHasSuffix ext b then strDropRight ext.data.length b else b

/-- The YAML frontmatter block written before each converted body
(`['---', title, source, '---', ''].join('\n')`). -/
def frontmatterFor (f : String) : String :=
  let title := baseNameWithout f (extLower f)
  joinSep "\n"
    ["---", "title: \"" ++ escapeQuotes title ++ "\"",
     "source: \"" ++ baseNameOf f ++ "\"", "---", ""]

/-- Per-file processing of the Markdown variant's conversion loop (`main`,
lines 387-420): create the output directory, then `try` the conversion —
on success write frontmatter + body + newline, on a thrown error write
nothing.  `conv` is the docx/pptx converter as an `Except` oracle. -/
def processFile1 (conv : String → Except String String) (outDir f : String) : List Effect :=
  let outRel := replaceDocxPptxToMd f
  let outPath := outDir ++ "/" ++ outRel
  Effect.mkdir (dirnameOf outPath) ::
    (match conv f with
     | .ok body => [Effect.writeFile outPath (frontmatterFor f ++ body ++ "\n")]
     | .error _ => [])

/-- The effect trace of the Markdown variant's `main` (first variant,
lines 349-429): exit on a missing input dir; create the output dir; stop if
no recognized files exist; copy spreadsheets; convert the rest; finally
write the sidebar config at the output root. -/
def main1Effects (inputExists : Bool) (conv : String → Except String String)
    (outDir : String) (inputs : List String) : List Effect :=
  if !inputExists then [Effect.exitCode 1]
  else
    Effect.mkdir outDir ::
      (let allFiles := inputs.filter keepRecognized
       if allFiles.isEmpty then []
       else
         let xlsxFiles := allFiles.filter (fun f => extLower f = ".xlsx")
         let convertFiles := allFiles.filter (fun f => extLower f ≠ ".xlsx")
         concatMap (fun f =>
             [Effect.mkdir (dirnameOf (outDir ++ "/" ++ f)),
              Effect.copyFile f (outDir ++ "/" ++ f)]) xlsxFiles
           ++ concatMap (processFile1 conv outDir) convertFiles
           ++ [Effect.writeSidebar (outDir ++ "/sidebar.ts")])

/-! ## Orchestrator effect model: HTML-viewer variant pptx branch -/

/-- Hexadecimal digit (upper case, as `encodeURIComponent` emits). -/
def hexDigit (n : Nat) : Char :=
  if n < 10 then Char.ofNat ('0'.toNat + n) else Char.ofNat ('A'.toNat + (n - 10))

/-- Percent-encode one byte. -/
def pctByte (b : Nat) : List Char := ['%', hexDigit (b / 16), hexDigit (b % 16)]

/-- UTF-8 bytes of a code point (as `encodeURIComponent` encodes non-ASCII
characters). -/
def utf8Bytes (c : Char) : List Nat :=
  let n := c.toNat
  if n < 128 then [n]
  else if n < 2048 then [192 + n / 64, 128 + n % 64]
  else if n < 65536 then [224 + n / 4096, 128 + n / 64 % 64, 128 + n % 64]
  else [240 + n / 262144, 128 + n / 4096 % 64, 128 + n / 64 % 64, 128 + n % 64]

/-- The characters `encodeURIComponent` leaves unescaped. -/
def isUriUnescaped (c : Char) : Bool :=
  c.isAlphanum || c = '-' || c = '_' || c = '.' || c = '!' || c = '~'
    || c = '*' || c = '\'' || c = '(' || c = ')'

/-- `encodeURIComponent`. -/
def encodeURIComponent (s : String) : String :=
  String.mk (concatMap
    (fun c => if isUriUnescaped c then [c] else concatMap pctByte (utf8Bytes c))
    s.data)

/-- `rel.replace(/\.pptx$/i, suffix)` (used for both `.html` and `.md`). -/
def replacePptxTo (suffix rel : String) : String :=
  if strLower (String.mk (rel.data.drop (rel.data.length - 5))) = ".pptx"
  then strDropRight 5 rel ++ suffix else rel

/-- The thin Markdown wrapper page written next to a converted deck
(HTML-viewer variant, lines 1223-1233): frontmatter plus an `iframe`
pointing at the percent-encoded viewer URL. -/
def mdWrapperFor (f : String) : String :=
  let title := baseNameWithout f (extLower f)
  let htmlRelFwd := replacePptxTo ".html" f
  let encodedUrl :=
    "/slides/" ++ joinSep "/" ((splitStr '/' htmlRelFwd).map encodeURIComponent)
  joinSep "\n"
    ["---", "title: \"" ++ escapeQuotes title ++ "\"",
     "source: \"" ++ baseNameOf f ++ "\"", "---", "",
     "<div style=\"width:100%;height:75vh;\">",
     "  <iframe src=\"" ++ encodedUrl
       ++ "\" style=\"width:100%;height:100%;border:none;\" title=\""
       ++ escapeHtml title ++ "\"></iframe>",
     "</div>", ""]

/-- Per-file processing of the HTML-viewer variant's pptx branch (`main`,
lines 1200-1241): create both output directories, then `try` the
conversion — on success write the viewer HTML under `public/slides/` and
the Markdown wrapper at the mirrored path; on a thrown error write
nothing. -/
def processPptx3 (conv : String → Except String String) (outDir f : String) : List Effect :=
  let htmlRelFwd := replacePptxTo ".html" f
  let mdRel := replacePptxTo ".md" f
  let htmlOutPath := outDir ++ "/public/slides/" ++ htmlRelFwd
  let mdOutPath := outDir ++ "/" ++ mdRel
  [Effect.mkdir (dirnameOf htmlOutPath), Effect.mkdir (dirnameOf mdOutPath)]
    ++ (match conv f with
        | .ok html => [Effect.writeFile htmlOutPath html,
                       Effect.writeFile mdOutPath (mdWrapperFor f)]
        | .error _ => [])

/-! ## Orchestrator effect model: docx-only variant (`main`, second variant) -/

/-- A maximal run of characters satisfying `p` is replaced by the single
character `rep`; all runs simultaneously (the whitespace-run and dash-run
replacements of `slugify` — a one-character run maps to `rep` as well,
which for the dash collapse is the identity on single dashes). -/
def replaceRuns (p : Char → Bool) (rep : Char) : List Char → List Char
  | [] => []
  | c :: t =>
    if p c then rep :: replaceRuns p rep (t.dropWhile p)
    else c :: replaceRuns p rep t
termination_by l => l.length
decreasing_by
  · have := (List.dropWhile_sublist (l := t) (p := p)).length_le
    simp only [List.length_cons]
    omega
  · simp

/-- `slugify` (docx-only variant): lower-case, whitespace runs to dashes,
URL-unsafe characters to dashes, dash runs collapsed, dashes trimmed. -/
def slugify (name : String) : String :=
  let s1 := (strLower name).data
  let s2 := replaceRuns Char.isWhitespace '-' s1
  let s3 := s2.map (fun c =>
    if c.isLower || c.isDigit || c = '-' || c = '_' || c = '.' then c else '-')
  let s4 := replaceRuns (fun c => c = '-') '-' s3
  String.mk ((s4.dropWhile (fun c => c = '-')).reverse.dropWhile (fun c => c = '-')).reverse

/-- `slugifyRelativePath` (docx-only variant): slugify every segment,
keeping the final segment's extension untouched. -/
def slugifyRelativePath (relPath : String) : String :=
  let segments := splitStr '/' relPath
  joinSep "/" ((withIdx 0 segments).map (fun p =>
    if p.1 + 1 = segments.length then
      let ext := extnameOf p.2
      slugify (baseNameWithout p.2 ext) ++ ext
    else slugify p.2))

/-- The docx filter of the docx-only variant. -/
def keepDocx (f : String) : Bool :=
  !strHasPrefix "~$" (baseNameOf f) && extLower f = ".docx"

/-- `relative.replace(/\.docx$/i, '.md')`. -/
def replaceDocxToMd (rel : String) : String :=
  if strLower (String.mk (rel.data.drop (rel.data.length - 5))) = ".docx"
  then strDropRight 5 rel ++ ".md" else rel

/-- Per-file processing of the docx-only variant's loop (lines 551-580):
slugified output path, directory creation, then `try`-convert-write. -/
def processFile2 (conv : String → Except String String) (outDir f : String) : List Effect :=
  let outRel := slugifyRelativePath (replaceDocxToMd f)
  let outPath := outDir ++ "/" ++ outRel
  Effect.mkdir (dirnameOf outPath) ::
    (match conv f with
     | .ok body => [Effect.writeFile outPath (frontmatterFor f ++ body ++ "\n")]
     | .error _ => [])

/-- The effect trace of the docx-only variant's `main` (second variant,
lines 525-584): exit on a missing input dir; remove the whole output tree
when it exists; recreate it; stop if no docx files exist; convert
file-by-file.  No sidebar is written in this variant. -/
def main2Effects (inputExists outputExists : Bool) (conv : String → Except String String)
    (outDir : String) (inputs : List String) : List Effect :=
  if !inputExists then [Effect.exitCode 1]
  else
    (if outputExists then [Effect.rmTree outDir] else [])
      ++ [Effect.mkdir outDir]
      ++ (let docxFiles := inputs.filter keepDocx
          if docxFiles.isEmpty then []
          else concatMap (processFile2 conv outDir) docxFiles)

/-! ## Sidebar builders (`buildSidebar` in both converter variants,
`buildSidebarItems` in the VitePress config) -/

/-- A VitePress sidebar item: display text, optional link, optional
collapsed flag, optional children. -/
inductive SidebarItem where
  | mk : String → Option String → Option Bool → Option (List SidebarItem) → SidebarItem

/-- Display text of a sidebar item. -/
def SidebarItem.text : SidebarItem → String
  | .mk t _ _ _ => t

/-- An entry of the output directory tree as seen by `readdirSync`
(`withFileTypes: true`): a directory with its children, or a file. -/
inductive FsEntry where
  | dir : String → List FsEntry → FsEntry
  | file : String → FsEntry

/-- Name of a directory entry. -/
def FsEntry.name : FsEntry → String
  | .dir n _ => n
  | .file n => n

/-- `entry.isDirectory()`. -/
def FsEntry.isDir : FsEntry → Bool
  | .dir _ _ => true
  | .file _ => false

/-- The entry comparator of the sidebar builders as a boolean `le`:
directories before files, same-kind entries by name.  (`localeCompare` is
locale-sensitive; it is modelled by code-point order, which affects only
the ordering of results, not which entries are represented.) -/
def entryLe (a b : FsEntry) : Bool :=
  if a.isDir ≠ b.isDir then a.isDir else (compare a.name b.name).isLE

/-- Infrastructure: inserting into a list is a permutation of consing. -/
theorem perm_insertLe (le : α → α → Bool) (x : α) :
    ∀ l : List α, (insertLe le x l).Perm (x :: l) := by
  intro l
  induction l with
  | nil => simp [insertLe]
  | cons y ys ih =>
    simp only [insertLe]
    by_cases h : le y x = true
    · simp only [h, if_pos]
      exact (ih.cons y).trans (List.Perm.swap x y ys)
    · simp [h]

/-- Infrastructure: insertion sort permutes its input. -/
theorem perm_insSortBy (le : α → α → Bool) (l : List α) :
    (insSortBy le l).Perm l := by
  suffices h : ∀ (l acc : List α), (l.foldl (fun a x => insertLe le x a) acc).Perm (acc ++ l) by
    simpa using h l []
  intro l
  induction l with
  | nil => simp
  | cons x xs ih =>
    intro acc
    simp only [List.foldl_cons]
    exact ((ih (insertLe le x acc)).trans
      (((perm_insertLe le x acc).append_right xs).trans List.perm_middle.symm))

/-- Infrastructure: permutations preserve `sizeOf`. -/
theorem sizeOf_eq_of_perm [SizeOf α] {l₁ l₂ : List α} (h : l₁.Perm l₂) :
    sizeOf l₁ = sizeOf l₂ := by
  induction h with
  | nil => rfl
  | cons x _ ih => simp [ih]
  | swap x y l => simp; omega
  | trans _ _ ih₁ ih₂ => exact ih₁.trans ih₂

/-- Infrastructure: filtering does not increase `sizeOf`. -/
theorem sizeOf_filter_le [SizeOf α] (p : α → Bool) (l : List α) :
    sizeOf (l.filter p) ≤ sizeOf l := by
  induction l with
  | nil => simp
  | cons a t ih =>
    simp only [List.filter_cons]
    by_cases h : p a = true
    · simp [h]; omega
    · simp only [h]
      simp only [Bool.false_eq_true, if_false, List.cons.sizeOf_spec]
      omega

mutual
/-- The (parameterized) `buildItems` recursion shared by the three sidebar
builders: filter out the excluded names, sort directories-first then by
name, and emit one item per remaining directory / Markdown file / (when
`withXlsx`) spreadsheet file.  `keep` is the per-name filter: the two
converter variants exclude `sidebar.ts` and `index.md`, the HTML-viewer
variant additionally excludes `public`; `withXlsx` is false for the
VitePress-config variant, which has no spreadsheet branch. -/
def buildItems (keep : String → Bool) (withXlsx : Bool)
    (entries : List FsEntry) (urlBase : String) : List SidebarItem :=
  buildGo keep withXlsx (insSortBy entryLe (entries.filter (fun e => keep e.name))) urlBase
termination_by (sizeOf entries, 1)
decreasing_by
  have h1 : sizeOf (insSortBy entryLe (entries.filter (fun e => keep e.name)))
      = sizeOf (entries.filter (fun e => keep e.name)) :=
    sizeOf_eq_of_perm (perm_insSortBy entryLe _)
  have h2 : sizeOf (entries.filter (fun e => keep e.name)) ≤ sizeOf entries :=
    sizeOf_filter_le _ entries
  rcases lt_or_eq_of_le (le_of_eq_of_le h1 h2) with h | h
  · exact Prod.Lex.left _ _ h
  · rw [h]; exact Prod.Lex.right _ (by omega)

/-- The `flatMap` body of `buildItems` over the sorted filtered entries:
a directory becomes a collapsed group built from its children, a `.md`
file a link with the extension stripped from text and target, a `.xlsx`
file (converter variants only) a download link with a glyph; anything else
is omitted. -/
def buildGo (keep : String → Bool) (withXlsx : Bool) :
    List FsEntry → String → List SidebarItem
  | [], _ => []
  | FsEntry.dir name children :: rest, urlBase =>
    SidebarItem.mk name none (some true)
        (some (buildItems keep withXlsx children (urlBase ++ name ++ "/")))
      :: buildGo keep withXlsx rest urlBase
  | FsEntry.file name :: rest, urlBase =>
    (if strHasSuffix ".md" name then
       [SidebarItem.mk (strDropRight 3 name) (some (strDropRight 3 (urlBase ++ name))) none none]
     else if withXlsx && strHasSuffix ".xlsx" name then
       [SidebarItem.mk ("📥 " ++ strDropRight 5 name) (some (urlBase ++ name)) none none]
     else [])
      ++ buildGo keep withXlsx rest urlBase
termination_by l _ => (sizeOf l, 0)
decreasing_by
  all_goals exact Prod.Lex.left _ _ (by simp <;> omega)
end

/-- `buildItems` of `buildSidebar` in the Markdown converter variant
(lines 300-332): excludes `sidebar.ts` and `index.md`, has the
spreadsheet branch. -/
def buildItemsMd (entries : List FsEntry) (urlBase : String) : List SidebarItem :=
  buildItems (fun n => n ≠ "sidebar.ts" && n ≠ "index.md") true entries urlBase

/-- `buildItems` of `buildSidebar` in the HTML-viewer variant
(lines 1099-1135): additionally excludes the `public` static-asset dir. -/
def buildItemsHtmlViewer (entries : List FsEntry) (urlBase : String) : List SidebarItem :=
  buildItems (fun n => n ≠ "sidebar.ts" && n ≠ "index.md" && n ≠ "public") true entries urlBase

/-- `buildSidebarItems` of the VitePress config (`part_000`, lines 16-46):
excludes `sidebar.ts` and `index.md`; directories and `.md` files only —
there is no spreadsheet branch (`map` to `null` plus `filter` is the same
as the converter variants' `flatMap` with an empty list). -/
def buildSidebarItems (entries : List FsEntry) (urlBase : String) : List SidebarItem :=
  buildItems (fun n => n ≠ "sidebar.ts" && n ≠ "index.md") false entries urlBase

/-- The display label an eligible entry contributes at its own level, and
`none` for omitted entries (the file-type cases of the builders). -/
def itemLabel (withXlsx : Bool) : FsEntry → Option String
  | .dir n _ => some n
  | .file n =>
    if strHasSuffix ".md" n then some (strDropRight 3 n)
    else if withXlsx && strHasSuffix ".xlsx" n then some ("📥 " ++ strDropRight 5 n)
    else none

/-! ## Concrete fixtures used by witnesses and counterexamples -/

/-- A minimal `<a:p>` paragraph node carrying the single text run `s`. -/
def paraNode (s : String) : JVal :=
  .obj [("a:r", .arr [.obj [("a:t", .arr [.str s])]])]

/-- An `<a:p>` paragraph node with no runs (renders as a blank line). -/
def emptyParaNode : JVal := .obj []

/-- A minimal slide-relationship manifest document mapping `rId1` to the
given target. -/
def relsDocFor (tgt : String) : JVal :=
  .obj [("Relationships", .arr [.obj [("Relationship", .arr [
    .obj [("$", .obj [("Id", .str "rId1"), ("Target", .str tgt)])]])]])]

/-- A deck whose slide filename numbers have a gap (slides 1 and 3, no
slide 2), each slide carrying its own relationship manifest with `rId1`
pointing at a different media file. -/
def gapDeck : List (String × JVal) :=
  [("ppt/slides/slide3.xml", .obj []),
   ("ppt/slides/slide1.xml", .obj []),
   ("ppt/slides/_rels/slide1.xml.rels", relsDocFor "../media/imageA.png"),
   ("ppt/slides/_rels/slide3.xml.rels", relsDocFor "../media/imageB.png")]

/-! ## Infrastructure lemmas -/

/-- `insertLe` keeps a comparator-chain sorted, given comparator totality. -/
theorem chain'_insertLe (le : α → α → Bool) (htot : ∀ a b, le a b = false → le b a = true)
    (x : α) : ∀ l, List.Chain' (fun a b => le a b = true) l →
    List.Chain' (fun a b => le a b = true) (insertLe le x l) := by
  intro l
  induction l with
  | nil => intro _; simp [insertLe]
  | cons y ys ih =>
    intro h
    have h' := (List.chain'_cons'.mp h)
    by_cases hyx : le y x = true
    · simp only [insertLe, hyx, if_true]
      rw [List.chain'_cons']
      refine ⟨?_, ih h'.2⟩
      intro b hb
      cases ys with
      | nil => simp [insertLe] at hb; simpa [hb] using hyx
      | cons z zs =>
        simp only [insertLe] at hb
        by_cases hzx : le z x = true
        · simp only [hzx, if_true, List.head?_cons, Option.mem_def, Option.some.injEq] at hb
          subst hb
          exact h'.1 z (by simp)
        · simp only [hzx, Bool.false_eq_true, if_false, List.head?_cons, Option.mem_def,
            Option.some.injEq] at hb
          subst hb
          exact hyx
    · simp only [insertLe, hyx, Bool.false_eq_true, if_false]
      rw [List.chain'_cons]
      exact ⟨htot y x (by simpa using hyx), h⟩

/-- Insertion sort by a total comparator produces a comparator-chain. -/
theorem chain'_insSortBy (le : α → α → Bool) (htot : ∀ a b, le a b = false → le b a = true)
    (l : List α) : List.Chain' (fun a b => le a b = true) (insSortBy le l) := by
  suffices h : ∀ (l acc : List α), List.Chain' (fun a b => le a b = true) acc →
      List.Chain' (fun a b => le a b = true) (l.foldl (fun a x => insertLe le x a) acc) by
    exact h l [] (by simp)
  intro l
  induction l with
  | nil => intro acc h; simpa using h
  | cons x xs ih =>
    intro acc h
    simp only [List.foldl_cons]
    exact ih (insertLe le x acc) (chain'_insertLe le htot x acc h)

/-- Two chains on the same list combine pointwise. -/
theorem chain'_and {R S : α → α → Prop} :
    ∀ {l : List α}, l.Chain' R → l.Chain' S → l.Chain' (fun a b => R a b ∧ S a b)
  | [], _, _ => by simp
  | [_], _, _ => by simp
  | _ :: _ :: _, hR, hS => by
    rw [List.chain'_cons] at *
    exact ⟨⟨hR.1, hS.1⟩, chain'_and hR.2 hS.2⟩

/-- `withIdx` preserves length. -/
theorem length_withIdx (l : List α) : ∀ i, (withIdx i l).length = l.length := by
  induction l with
  | nil => intro i; rfl
  | cons a t ih => intro i; simp [withIdx, ih]

/-- A string is empty iff its character list is. -/
theorem str_eq_empty_iff (s : String) : s = "" ↔ s.data = [] := by
  constructor
  · intro h; simp [h]
  · intro h; cases s; simp_all

/-- `joinSep` of a list headed by a non-empty string is non-empty. -/
theorem joinSep_ne_empty (sep : String) (t : String) (ts : List String) (h : t ≠ "") :
    joinSep sep (t :: ts) ≠ "" := by
  cases ts with
  | nil => simpa [joinSep] using h
  | cons s ss =>
    simp only [joinSep]
    intro he
    rw [str_eq_empty_iff] at he
    simp only [String.data_append] at he
    rcases List.append_eq_nil.mp (List.append_eq_nil.mp he).1 with ⟨h1, _⟩
    exact h ((str_eq_empty_iff t).mpr h1)

/-- Feeding a replicate-run of newlines into the collapse worker adds the
run length to the pending counter. -/
theorem collapseNLGo_run (k : Nat) : ∀ (j : Nat) (post : List Char),
    collapseNLGo j (List.replicate k '\n' ++ post) = collapseNLGo (j + k) post := by
  induction k with
  | zero => intro j post; simp
  | succ n ih =>
    intro j post
    simp only [List.replicate_succ, List.cons_append, collapseNLGo, if_pos, List.append_eq]
    rw [ih (j + 1)]
    have : j + 1 + n = j + (n + 1) := by omega
    rw [this]

/-- When the input does not begin with a newline, the pending run is
flushed as `min k 2` newlines. -/
theorem collapseNLGo_flush (k : Nat) (post : List Char) (h : post.head? ≠ some '\n') :
    collapseNLGo k post = List.replicate (min k 2) '\n' ++ collapseNLGo 0 post := by
  cases post with
  | nil => simp [collapseNLGo]
  | cons c rest =>
    have hc : ¬ c = '\n' := by intro e; subst e; simp at h
    simp [collapseNLGo, hc]

/-- The collapse worker passes a newline-free prefix through unchanged. -/
theorem collapseNLGo_copy (pre : List Char) (hpre : '\n' ∉ pre) (t : List Char) :
    collapseNLGo 0 (pre ++ t) = pre ++ collapseNLGo 0 t := by
  induction pre with
  | nil => simp
  | cons c cs ih =>
    have hc : ¬ c = '\n' := fun e => hpre (e ▸ List.mem_cons_self c cs)
    have h2 : '\n' ∉ cs := fun m => hpre (List.mem_cons_of_mem c m)
    simp [collapseNLGo, hc, ih h2]

/-- The resolver's fold coincides with the specification's explicit
segment recursion, from any accumulated stack. -/
theorem foldl_eq_resolveSegsSpec (segs : List String) : ∀ acc : List String,
    segs.foldl
      (fun acc p => if p = ".." then acc.dropLast else if p = "." then acc else acc ++ [p]) acc
      = resolveSegsSpec acc segs := by
  induction segs with
  | nil => intro acc; rfl
  | cons s rest ih =>
    intro acc
    simp only [List.foldl_cons, resolveSegsSpec]
    by_cases h1 : s = ".."
    · simp [h1, ih]
    · by_cases h2 : s = "."
      · simp [h1, h2, ih]
      · simp [h1, h2, ih]

/-- The display texts emitted by the builders' per-entry body are exactly
the `itemLabel`s of the eligible entries. -/
theorem buildGo_map_text (keep : String → Bool) (withXlsx : Bool) :
    ∀ (l : List FsEntry) (urlBase : String),
    (buildGo keep withXlsx l urlBase).map SidebarItem.text = l.filterMap (itemLabel withXlsx) := by
  intro l
  induction l with
  | nil => intro urlBase; simp [buildGo]
  | cons e rest ih =>
    intro urlBase
    cases e with
    | dir name children =>
      simp [buildGo, itemLabel, SidebarItem.text, ih]
    | file name =>
      by_cases hmd : strHasSuffix ".md" name = true
      · simp [buildGo, itemLabel, SidebarItem.text, hmd, ih]
      · by_cases hx : (withXlsx && strHasSuffix ".xlsx" name) = true
        · simp [buildGo, itemLabel, SidebarItem.text, hmd, hx, ih]
        · simp [buildGo, itemLabel, SidebarItem.text, hmd, hx, ih]

/-- The sidebar builders represent, at each level, exactly the kept
entries whose label is defined, as a permutation of labels. -/
theorem buildItems_text_perm (keep : String → Bool) (withXlsx : Bool)
    (entries : List FsEntry) (urlBase : String) :
    ((buildItems keep withXlsx entries urlBase).map SidebarItem.text).Perm
      ((entries.filter (fun e => keep e.name)).filterMap (itemLabel withXlsx)) := by
  rw [buildItems, buildGo_map_text]
  exact (perm_insSortBy entryLe _).filterMap _

/-- When the title accumulator is already set (non-empty, hence truthy),
the shape loop only accumulates body blocks. -/
theorem slideLoop_set (title : String) (htitle : title ≠ "") :
    ∀ sps : List JVal, slideLoop title sps = (title, sps.filterMap blockOf) := by
  intro sps
  induction sps with
  | nil => simp [slideLoop]
  | cons sp rest ih =>
    by_cases hempty : (shapeTexts sp).isEmpty = true
    · simp [slideLoop, hempty, ih, blockOf]
    · have hcond : (shapeIsTitleType sp && title = "") = false := by
        simp [htitle]
      simp only [slideLoop, hempty, Bool.false_eq_true, if_false, hcond, ih]
      simp only [blockOf, hempty, Bool.false_eq_true, if_false, List.filterMap_cons]
      by_cases hblk : strTrim (paragraphsToMarkdown (shapeParagraphs sp)) = ""
      · simp [hblk]
      · simp [hblk]


/-- The shape loop from the unset title state: the title comes from the
first title-typed shape with a non-empty text list, and every other
text-bearing shape (including later title-typed ones) contributes its
body block. -/
theorem slideLoop_unset (sps : List JVal) :
    slideLoop "" sps =
      ((match sps.find? (fun sp => shapeIsTitleType sp && !(shapeTexts sp).isEmpty) with
        | some sp => joinSep " " (shapeTexts sp)
        | none => ""),
       (sps.eraseP (fun sp => shapeIsTitleType sp && !(shapeTexts sp).isEmpty)).filterMap blockOf)
    := by
  induction sps with
  | nil => simp [slideLoop]
  | cons sp rest ih =>
    by_cases hempty : (shapeTexts sp).isEmpty = true
    · rw [List.find?_cons_of_neg _ (by simp [hempty]),
        List.eraseP_cons_of_neg (by simp [hempty]),
        List.filterMap_cons_none (by simp [blockOf, hempty])]
      have hskip : slideLoop "" (sp :: rest) = slideLoop "" rest := by
        simp only [slideLoop]
        rw [if_pos hempty]
      rw [hskip, ih]
    · by_cases htitle : shapeIsTitleType sp = true
      · have hne : joinSep " " (shapeTexts sp) ≠ "" := by
          rcases hts : shapeTexts sp with _ | ⟨t, ts⟩
          · simp [hts] at hempty
          · have htne : t ≠ "" := by
              have hmem : t ∈ ((shapeParagraphs sp).map
                  (fun p => (parseParagraph p).text)).filter (fun t => t ≠ "") := by
                rw [← shapeTexts, hts]; exact List.mem_cons_self t ts
              simpa using List.of_mem_filter hmem
            exact joinSep_ne_empty " " t ts htne
        rw [List.find?_cons_of_pos _ (by simp [htitle, hempty]),
          List.eraseP_cons_of_pos (by simp [htitle, hempty])]
        have hstep : slideLoop "" (sp :: rest) = slideLoop (joinSep " " (shapeTexts sp)) rest := by
          simp only [slideLoop]
          rw [if_neg hempty, if_pos (by simp [htitle])]
        rw [hstep, slideLoop_set _ hne]
      · rw [List.find?_cons_of_neg _ (by simp [htitle]),
          List.eraseP_cons_of_neg (by simp [htitle])]
        have hstep : slideLoop "" (sp :: rest) =
            ((slideLoop "" rest).1,
             if strTrim (paragraphsToMarkdown (shapeParagraphs sp)) ≠ ""
             then paragraphsToMarkdown (shapeParagraphs sp) :: (slideLoop "" rest).2
             else (slideLoop "" rest).2) := by
          simp only [slideLoop]
          rw [if_neg hempty, if_neg (by simp [htitle])]
        rw [hstep, ih]
        by_cases hblk : strTrim (paragraphsToMarkdown (shapeParagraphs sp)) = ""
        · rw [List.filterMap_cons_none (by simp [blockOf, hempty, hblk])]
          simp [hblk]
        · rw [List.filterMap_cons_some (by simp [blockOf, hempty, hblk] : blockOf sp = some (paragraphsToMarkdown (shapeParagraphs sp)))]
          simp [hblk]

/-! ## Claim theorems -/

/-- Claim C6: the path resolver applied to base `ppt/slides/slide1.xml`
and relative target `../media/image1.png` returns exactly
`ppt/media/image1.png`; and the resolver is the pure deterministic
function that takes the directory portion of the base, concatenates the
target, splits on `/`, and folds left-to-right with `..` popping the last
accumulated segment and `.` dropped — stated as agreement, on all inputs,
with `resolveZipPathSpec`, the independent recursion written from the
specification's description of that algorithm. -/
theorem c6_resolve_zip_path :
    resolveZipPath "ppt/slides/slide1.xml" "../media/image1.png" = "ppt/media/image1.png"
    ∧ ∀ basePath relativeTarget : String,
        resolveZipPath basePath relativeTarget = resolveZipPathSpec basePath relativeTarget := by
  refine ⟨by decide, ?_⟩
  intro b t
  unfold resolveZipPath resolveZipPathSpec
  simp only [foldl_eq_resolveSegsSpec]

/-- Claim C3 (counterexample): a body block containing a run of exactly
two consecutive blank lines — fewer than three — is not left unchanged:
the rendered block for paragraphs `a`, blank, blank, `b` is
`"- a\n\n- b"` (one blank line), not the `"- a\n\n\n- b"` that preserving
runs of fewer than 3 blank lines would produce. -/
theorem c3_counterexample_two_blank_lines :
    paragraphsToMarkdown [paraNode "a", emptyParaNode, emptyParaNode, paraNode "b"]
      = "- a\n\n- b"
    ∧ paragraphsToMarkdown [paraNode "a", emptyParaNode, emptyParaNode, paraNode "b"]
      ≠ "- a\n\n\n- b" := by
  constructor
  · decide
  · decide

/-- Claim C3 (amended): `paragraphsToMarkdown` joins the rendered lines
with newlines and collapses newline runs, and the collapse replaces every
maximal run of `k` newline characters by `min k 2` newlines — so runs of
two or more consecutive blank lines (three or more newlines) collapse to
exactly one blank line, while a single blank line (at most two newlines)
is unchanged. -/
theorem c3_amended_blank_line_collapse :
    (∀ paragraphs : List JVal,
      paragraphsToMarkdown paragraphs = collapseNL (joinSep "\n" (paragraphs.map mdLineOf)))
    ∧ ∀ (pre post : List Char) (k : Nat), '\n' ∉ pre → post.head? ≠ some '\n' →
        collapseNLGo 0 (pre ++ List.replicate k '\n' ++ post)
          = pre ++ (List.replicate (min k 2) '\n' ++ collapseNLGo 0 post) := by
  refine ⟨fun _ => rfl, ?_⟩
  intro pre post k hpre hpost
  rw [List.append_assoc, collapseNLGo_copy pre hpre, collapseNLGo_run k 0 post]
  rw [Nat.zero_add, collapseNLGo_flush k post hpost]

/-- Witness for the amended C3 at a concrete interior run of three
newlines between non-newline characters. -/
theorem c3_amended_blank_line_collapse_witness :
    collapseNLGo 0 (['a'] ++ List.replicate 3 '\n' ++ ['b'])
      = ['a'] ++ (List.replicate (min 3 2) '\n' ++ collapseNLGo 0 ['b']) :=
  c3_amended_blank_line_collapse.2 ['a'] ['b'] 3 (by decide) (by decide)

/-- Claim C4: for every slide document, the slide's title is the extracted
text (the space-joined non-empty paragraph texts) of the first shape, in
shape order, whose placeholder type is `title`, `ctrTitle` or `subTitle`
and whose extracted text is non-empty; and the body blocks are exactly
those of all other text-bearing shapes — in particular every subsequent
title-typed shape falls through to body content. -/
theorem c4_first_title_shape_wins (slideDoc : JVal) :
    (parseSlideDoc slideDoc).title =
      (match (slideShapesOf slideDoc).find?
          (fun sp => shapeIsTitleType sp && !(shapeTexts sp).isEmpty) with
       | some sp => joinSep " " (shapeTexts sp)
       | none => "")
    ∧ (parseSlideDoc slideDoc).bodyBlocks =
      ((slideShapesOf slideDoc).eraseP
          (fun sp => shapeIsTitleType sp && !(shapeTexts sp).isEmpty)).filterMap blockOf := by
  have h := slideLoop_unset (slideShapesOf slideDoc)
  unfold parseSlideDoc
  rw [h]
  exact ⟨rfl, rfl⟩

/-- Claim C5: for every deck, the Markdown output contains exactly one
rendered slide section per slide entry matching
`ppt/slides/slide<digits>.xml` (the section-list length equals the number
of matching entries, and the section keys are a permutation of them), and
the sections appear in ascending numeric order of the entry filename's
number regardless of any other ordering metadata (the processed key list
is sorted by slide number; strictly so whenever the matching entries'
numbers are distinct, as they are in any real package). -/
theorem c5_sections_per_slide_in_numeric_order (files : List (String × JVal)) :
    (sortSlideKeys (files.map Prod.fst)).Perm ((files.map Prod.fst).filter isSlideKey)
    ∧ List.Chain' (fun a b => slideNumOf a ≤ slideNumOf b) (sortSlideKeys (files.map Prod.fst))
    ∧ (convertPptxSections files).length = ((files.map Prod.fst).filter isSlideKey).length
    ∧ convertPptx files = joinSep "\n\n---\n\n" (convertPptxSections files)
    ∧ ((((files.map Prod.fst).filter isSlideKey).map slideNumOf).Nodup →
        List.Chain' (fun a b => slideNumOf a < slideNumOf b) (sortSlideKeys (files.map Prod.fst)))
    := by
  have hperm : (sortSlideKeys (files.map Prod.fst)).Perm ((files.map Prod.fst).filter isSlideKey) :=
    perm_insSortBy _ _
  have htot : ∀ a b : String, slideKeyLe a b = false → slideKeyLe b a = true := by
    intro a b h
    simp only [slideKeyLe, decide_eq_false_iff_not, not_le] at h
    simp only [slideKeyLe, decide_eq_true_eq]
    omega
  have hle : List.Chain' (fun a b => slideNumOf a ≤ slideNumOf b)
      (sortSlideKeys (files.map Prod.fst)) := by
    have := chain'_insSortBy slideKeyLe htot ((files.map Prod.fst).filter isSlideKey)
    exact this.imp (fun a b h => by simpa [slideKeyLe] using h)
  refine ⟨hperm, hle, ?_, rfl, ?_⟩
  · unfold convertPptxSections
    rw [List.length_map, length_withIdx]
    exact hperm.length_eq
  · intro hnd
    have hnd' : ((sortSlideKeys (files.map Prod.fst)).map slideNumOf).Nodup :=
      ((hperm.map slideNumOf).nodup_iff).mpr hnd
    have hpw : (sortSlideKeys (files.map Prod.fst)).Pairwise
        (fun a b => slideNumOf a ≠ slideNumOf b) := by
      rw [List.Nodup, List.pairwise_map] at hnd'
      exact hnd'
    have hne := hpw.chain'
    exact (chain'_and hle hne).imp (fun a b h => lt_of_le_of_ne h.1 h.2)

/-- Witness for C5's distinct-numbers hypothesis at a concrete deck with
slide numbers 1 and 3 listed out of order. -/
theorem c5_sections_witness :
    List.Chain' (fun a b => slideNumOf a < slideNumOf b)
      (sortSlideKeys (gapDeck.map Prod.fst)) :=
  (c5_sections_per_slide_in_numeric_order gapDeck).2.2.2.2 (by decide)

/-- Claim C7: a picture shape whose relationship ID is missing, absent
from the slide's relationship map, or whose resolved archive path has no
media-cache entry contributes no shape: slide parsing of a picture list
with such a picture equals slide parsing without it (so the rest of the
slide's shapes are unaffected), and `parseSlide` is the total function
assembling these shape lists (no error path exists). -/
theorem c7_unresolvable_picture_dropped
    (sps l1 l2 : List JVal) (pic : JVal) (rels mediaCache : List (String × String))
    (slideW slideH : Int)
    (hbad : picRId pic = none
      ∨ (∀ r, picRId pic = some r → relTargetLookup rels r = none)
      ∨ (∀ r z, picRId pic = some r → relTargetLookup rels r = some z →
          cacheLookup mediaCache z = none)) :
    parseSlideCore sps (l1 ++ pic :: l2) rels mediaCache slideW slideH
      = parseSlideCore sps (l1 ++ l2) rels mediaCache slideW slideH
    ∧ ∀ slideDoc : JVal,
        (parseSlide slideDoc rels mediaCache slideW slideH).shapes
          = parseSlideCore (slideSpNodes slideDoc) (slidePicNodes slideDoc)
              rels mediaCache slideW slideH := by
  refine ⟨?_, fun _ => rfl⟩
  have hnone : picShapeOf rels mediaCache slideW slideH pic = none := by
    unfold picShapeOf
    cases hx : getTransform pic slideW slideH with
    | none => rfl
    | some xf =>
      cases hr : picRId pic with
      | none => rfl
      | some r =>
        rcases hbad with hbad | hbad | hbad
        · rw [hbad] at hr; exact absurd hr (by simp)
        · simp only [hbad r hr]
        · cases hz : relTargetLookup rels r with
          | none => simp only [hz]
          | some z => simp only [hz, hbad r z hr hz]
  unfold parseSlideCore
  rw [List.filterMap_append, List.filterMap_append, List.filterMap_cons_none hnone]

/-- Witness for C7 at a concrete picture node with no relationship ID. -/
theorem c7_unresolvable_picture_dropped_witness :
    parseSlideCore [] ([] ++ JVal.obj [] :: []) [] [] 9144000 6858000
      = parseSlideCore [] ([] ++ []) [] [] 9144000 6858000
    ∧ ∀ slideDoc : JVal,
        (parseSlide slideDoc [] [] 9144000 6858000).shapes
          = parseSlideCore (slideSpNodes slideDoc) (slidePicNodes slideDoc)
              [] [] 9144000 6858000 :=
  c7_unresolvable_picture_dropped [] [] [] (JVal.obj []) [] [] 9144000 6858000
    (Or.inl (by decide))

/-- Claim C1 (code divergence): on the gap deck (slides 1 and 3, each with
its own relationship manifest), the HTML-viewer pipeline resolves slide 3's
pictures with the empty map built from the positional entry
`ppt/slides/_rels/slide2.xml.rels` (absent), not with slide 3's own
manifest, which maps `rId1` to `ppt/media/imageB.png`. -/
theorem c1_rels_positional_not_per_slide :
    convertPptxToHtmlRels gapDeck =
      [("ppt/slides/slide1.xml", [("rId1", "ppt/media/imageA.png")]),
       ("ppt/slides/slide3.xml", [])]
    ∧ parseRels "ppt/slides/slide3.xml" (relsDocFor "../media/imageB.png")
        = [("rId1", "ppt/media/imageB.png")]
    ∧ ownRelKeyOf "ppt/slides/slide3.xml" = "ppt/slides/_rels/slide3.xml.rels"
    ∧ relKeyForPosition 2 = "ppt/slides/_rels/slide2.xml.rels" := by
  refine ⟨by decide, by decide, by decide, by decide⟩

/-- Claim C2 (counterexample): a run whose input directory exists but
contains no convertible or copyable file (here a lone `notes.txt`) returns
early after creating the output directory — its effect trace is just the
`mkdir`, and in particular contains no write of the navigation index
`sidebar.ts`. -/
theorem c2_counterexample_no_files_no_sidebar :
    main1Effects true (fun _ => Except.ok "") "docs" ["notes.txt"] = [Effect.mkdir "docs"]
    ∧ Effect.writeSidebar ("docs" ++ "/sidebar.ts")
        ∉ main1Effects true (fun _ => Except.ok "") "docs" ["notes.txt"] := by
  exact ⟨by decide, by decide⟩

/-- Claim C2 (amended): after every run whose input directory exists and
that finds at least one recognized input file, the navigation index is
(re)written at the output root; a run that finds none returns early (its
trace is just the output-directory `mkdir`) without writing it. -/
theorem c2_amended_sidebar_written_iff_files_found
    (conv : String → Except String String) (outDir : String) (inputs : List String) :
    (inputs.filter keepRecognized ≠ [] →
      Effect.writeSidebar (outDir ++ "/sidebar.ts") ∈ main1Effects true conv outDir inputs)
    ∧ (inputs.filter keepRecognized = [] →
      main1Effects true conv outDir inputs = [Effect.mkdir outDir]) := by
  constructor
  · intro h
    have hne : ¬((inputs.filter keepRecognized).isEmpty = true) := by
      simpa [List.isEmpty_iff] using h
    unfold main1Effects
    simp only [Bool.not_true, Bool.false_eq_true, if_false]
    rw [if_neg hne]
    exact List.mem_cons_of_mem _ (List.mem_append_right _ (List.mem_singleton_self _))
  · intro h
    have he : (inputs.filter keepRecognized).isEmpty = true := by simp [h]
    unfold main1Effects
    simp only [Bool.not_true, Bool.false_eq_true, if_false]
    rw [if_pos he]

/-- Witness for the amended C2: a run finding one docx file writes the
sidebar, and a run finding none produces only the output-dir `mkdir`. -/
theorem c2_amended_sidebar_written_iff_files_found_witness :
    Effect.writeSidebar ("docs" ++ "/sidebar.ts")
      ∈ main1Effects true (fun _ => Except.ok "") "docs" ["a.docx"]
    ∧ main1Effects true (fun _ => Except.ok "") "docs" ["readme.txt"]
        = [Effect.mkdir "docs"] :=
  ⟨(c2_amended_sidebar_written_iff_files_found (fun _ => Except.ok "") "docs" ["a.docx"]).1
      (by decide),
   (c2_amended_sidebar_written_iff_files_found (fun _ => Except.ok "") "docs" ["readme.txt"]).2
      (by decide)⟩

/-- Claim C8: for every input file whose conversion raises an error, the
per-file processing emits no output-file write — in all three variants'
loops (Markdown variant, HTML-viewer pptx branch, docx-only variant) the
converter is called before any `writeFileSync`, so a failed conversion
contributes only directory creations and leaves no partial output file. -/
theorem c8_failed_conversion_writes_nothing
    (conv : String → Except String String) (outDir f e : String)
    (h : conv f = Except.error e) :
    (∀ eff ∈ processFile1 conv outDir f, eff.isFileWrite = false)
    ∧ (∀ eff ∈ processPptx3 conv outDir f, eff.isFileWrite = false)
    ∧ (∀ eff ∈ processFile2 conv outDir f, eff.isFileWrite = false) := by
  refine ⟨?_, ?_, ?_⟩ <;> intro eff hm
  · simp only [processFile1, h, List.mem_cons, List.not_mem_nil, or_false] at hm
    subst hm; rfl
  · simp only [processPptx3, h, List.append_nil, List.mem_cons, List.not_mem_nil, or_false] at hm
    rcases hm with hm | hm <;> (subst hm; rfl)
  · simp only [processFile2, h, List.mem_cons, List.not_mem_nil, or_false] at hm
    subst hm; rfl

/-- Witness for C8 at a converter that throws on a concrete file. -/
theorem c8_failed_conversion_writes_nothing_witness :
    (∀ eff ∈ processFile1 (fun _ => Except.error "boom") "docs" "sub/doc.docx",
      eff.isFileWrite = false)
    ∧ (∀ eff ∈ processPptx3 (fun _ => Except.error "boom") "docs" "sub/doc.docx",
      eff.isFileWrite = false)
    ∧ (∀ eff ∈ processFile2 (fun _ => Except.error "boom") "docs" "sub/doc.docx",
      eff.isFileWrite = false) :=
  c8_failed_conversion_writes_nothing (fun _ => Except.error "boom") "docs" "sub/doc.docx"
    "boom" rfl

/-- Claim C9: in the docx-only variant, every run that passes input
validation begins, when the output directory exists, with the recursive
removal of the whole output tree followed by its re-creation (the first
two effects of the trace), and otherwise begins with the re-creation — so
all pre-existing files under the output directory are removed on every
such run. -/
theorem c9_output_dir_reset_first
    (conv : String → Except String String) (outDir : String) (inputs : List String) :
    (main2Effects true true conv outDir inputs).take 2
      = [Effect.rmTree outDir, Effect.mkdir outDir]
    ∧ (main2Effects true false conv outDir inputs).take 1 = [Effect.mkdir outDir] := by
  constructor <;> rfl

/-- Claim C10 (counterexample): the VitePress-config sidebar builder
(`buildSidebarItems`, `part_000`) omits `.xlsx` entries: on a level whose
only entry is `report.xlsx` it produces no items, while the converter-side
builder represents the same entry — so "all .md/.xlsx files at that level
are represented" fails for the config builder. -/
theorem c10_counterexample_xlsx_missing_from_config_builder :
    buildSidebarItems [FsEntry.file "report.xlsx"] "/" = []
    ∧ buildItemsMd [FsEntry.file "report.xlsx"] "/" ≠ [] := by
  constructor
  · have h : ((buildSidebarItems [FsEntry.file "report.xlsx"] "/").map SidebarItem.text).Perm
        (([FsEntry.file "report.xlsx"].filter
            (fun e => e.name ≠ "sidebar.ts" && e.name ≠ "index.md")).filterMap
          (itemLabel false)) :=
      buildItems_text_perm _ _ _ _
    have hz : (([FsEntry.file "report.xlsx"].filter
        (fun e => e.name ≠ "sidebar.ts" && e.name ≠ "index.md")).filterMap
        (itemLabel false)) = ([] : List String) := by decide
    rw [hz] at h
    exact List.map_eq_nil_iff.mp h.eq_nil
  · intro hnil
    have h : ((buildItemsMd [FsEntry.file "report.xlsx"] "/").map SidebarItem.text).Perm
        (([FsEntry.file "report.xlsx"].filter
            (fun e => e.name ≠ "sidebar.ts" && e.name ≠ "index.md")).filterMap
          (itemLabel true)) :=
      buildItems_text_perm _ _ _ _
    rw [hnil] at h
    have := h.symm.eq_nil
    revert this
    decide

/-- Claim C10 (amended): at every directory level, each builder omits
entries named `sidebar.ts` and `index.md` (the HTML-viewer builder also
`public`) and represents every other directory and every `.md` file; the
two converter-side builders additionally represent every `.xlsx` file,
while the VitePress-config builder omits `.xlsx` files.  Stated as: the
item texts at a level are a permutation of the labels of the kept,
labelled entries. -/
theorem c10_amended_sidebar_level_membership (entries : List FsEntry) (urlBase : String) :
    ((buildItemsMd entries urlBase).map SidebarItem.text).Perm
      ((entries.filter (fun e => e.name ≠ "sidebar.ts" && e.name ≠ "index.md")).filterMap
        (itemLabel true))
    ∧ ((buildItemsHtmlViewer entries urlBase).map SidebarItem.text).Perm
      ((entries.filter
          (fun e => e.name ≠ "sidebar.ts" && e.name ≠ "index.md" && e.name ≠ "public")).filterMap
        (itemLabel true))
    ∧ ((buildSidebarItems entries urlBase).map SidebarItem.text).Perm
      ((entries.filter (fun e => e.name ≠ "sidebar.ts" && e.name ≠ "index.md")).filterMap
        (itemLabel false)) :=
  ⟨buildItems_text_perm _ _ entries urlBase,
   buildItems_text_perm _ _ entries urlBase,
   buildItems_text_perm _ _ entries urlBase⟩
